import Mathlib

/-!
Verification of `docs/repo-release-notes-generator.py`.

The script is shallowly embedded: Python strings are lists of characters,
the JSON values returned by the remote API are an inductive type `JVal`,
and code that can raise a Python exception is modelled in
`Except PyErr`.  Output produced through `print` is modelled as the list
of argument strings handed to the successive `print` calls (each call
appends its own final newline, and `print(x, end=' ')` appends a space;
those separators added by `print` itself are not part of the modelled
strings).  When an exception is raised mid-pass the model returns only
the error; text printed before the exception is not tracked.
-/

namespace RepoReleaseNotes

/-- Python `str` values: modelled as lists of characters. -/
abbrev Str := List Char

/-- The characters on which Python's argument-less `str.split()` splits. -/
def isSpace (c : Char) : Bool :=
  c = ' ' || c = '\t' || c = '\n' || c = '\r' || c = '\x0b' || c = '\x0c'

/-- Accumulator splitter: `splitWsAux s cur` scans `s`, `cur` holding the
current word reversed.  Mirrors Python `str.split()` with no arguments:
runs of whitespace separate words and empty words are dropped. -/
def splitWsAux : Str → Str → List Str
  | [], cur => if cur = [] then [] else [cur.reverse]
  | c :: rest, cur =>
    if isSpace c then
      if cur = [] then splitWsAux rest [] else cur.reverse :: splitWsAux rest []
    else
      splitWsAux rest (c :: cur)

/-- Python `body.split()` (no arguments). -/
def splitWs (s : Str) : List Str := splitWsAux s []

/-- The body of the `for word in parts` loop of `bodyBreaker`:
`if len(word) > width: word = (word[:width] + '..')`. -/
def truncWord (width : Nat) (w : Str) : Str :=
  if w.length > width then w.take width ++ ['.', '.'] else w

/-- `bodyBreaker(body, width)` from `generateTable`: split the body,
truncate every over-long word to `width` characters plus `'..'`, and
re-assemble appending `word + ' '` for each word. -/
def bodyBreaker (body : Str) (width : Nat) : Str :=
  (splitWs body).foldl (fun acc w => acc ++ (truncWord width w ++ [' '])) []

/-- Python `s.replace(c, r)` for a single-character pattern `c`:
every occurrence of `c` is replaced by the string `r`. -/
def pyReplaceChar (s : Str) (c : Char) (r : Str) : Str :=
  match s with
  | [] => []
  | x :: xs => (if x = c then r else [x]) ++ pyReplaceChar xs c r

/-- Python `str.capitalize()`: first character upper-cased, the rest
lower-cased (ASCII suffices for the label names used here). -/
def pyCapitalize (s : Str) : Str :=
  match s with
  | [] => []
  | c :: rest => c.toUpper :: rest.map Char.toLower

/-- The label touch-up shared by `generateTable` and `generateList`:
`label = label.capitalize()`, and `"Bug"` becomes `"Bug Fix"`. -/
def fixLabel (s : Str) : Str :=
  let l := pyCapitalize s
  if l = "Bug".data then "Bug Fix".data else l

/-- The backtick character (stripped from bodies by `generateTable`). -/
def backquote : Char := Char.ofNat 96

/-- JSON values as produced by `json.loads` on the API responses. -/
inductive JVal : Type where
  | jnull
  | jbool (b : Bool)
  | jnum (n : Int)
  | jstr (s : Str)
  | jarr (elems : List JVal)
  | jobj (fields : List (Str × JVal))

/-- The kinds of Python exception the embedded code can raise. -/
inductive PyErr : Type where
  | typeError
  | keyError
  | attrError
deriving DecidableEq

/-- Key lookup in a JSON object (keys are unique in the API responses). -/
def lookupField : List (Str × JVal) → Str → Option JVal
  | [], _ => none
  | p :: ps, k => if p.1 = k then some p.2 else lookupField ps k

/-- Python `v[k]` for a string key `k`: a dict yields the value or raises
`KeyError`; subscripting a list, string, number, bool or `None` with a
string key raises `TypeError`. -/
def pyIndex (v : JVal) (k : Str) : Except PyErr JVal :=
  match v with
  | .jobj fs =>
    match lookupField fs k with
    | some x => .ok x
    | none => .error .keyError
  | _ => .error .typeError

/-- Python `v.encode('utf-8')`: only `str` has `encode`; every other
value raises `AttributeError`. -/
def pyEncode (v : JVal) : Except PyErr Str :=
  match v with
  | .jstr s => .ok s
  | _ => .error .attrError

/-- Models `result['body'][0:limit].encode('utf-8')` applied to the raw
body value, returning the underlying string (the slice itself is taken
by `processBody`): slicing `None`, a number, a bool or a dict raises
`TypeError`; slicing a list succeeds but the following `.encode` raises
`AttributeError`. -/
def sliceBody (v : JVal) : Except PyErr Str :=
  match v with
  | .jstr s => .ok s
  | .jarr _ => .error .attrError
  | _ => .error .typeError

mutual

/-- Python `repr` of a JSON value, used when a non-string value reaches
`"...".format(...)`.  Quote-escaping inside nested strings is not
reproduced; no claim exercises container values in formatted fields. -/
def pyRepr : JVal → Str
  | .jnull => "None".data
  | .jbool b => if b then "True".data else "False".data
  | .jnum n => (toString n).data
  | .jstr s => '\'' :: (s ++ ['\''])
  | .jarr xs => '[' :: (pyReprElems xs ++ [']'])
  | .jobj fs => Char.ofNat 123 :: (pyReprFields fs ++ [Char.ofNat 125])

/-- `repr` of the elements of a list, comma-separated. -/
def pyReprElems : List JVal → Str
  | [] => []
  | [x] => pyRepr x
  | x :: y :: xs => pyRepr x ++ ", ".data ++ pyReprElems (y :: xs)

/-- `repr` of the entries of a dict, comma-separated (string keys are
rendered inline between single quotes). -/
def pyReprFields : List (Str × JVal) → Str
  | [] => []
  | [p] => '\'' :: (p.1 ++ ['\'']) ++ ": ".data ++ pyRepr p.2
  | p :: q :: ps =>
    '\'' :: (p.1 ++ ['\'']) ++ ": ".data ++ pyRepr p.2 ++ ", ".data ++ pyReprFields (q :: ps)

end

/-- Python `"...".format(v)`: a string formats as itself, anything else
as its `repr`. -/
def pyStrOf (v : JVal) : Str :=
  match v with
  | .jstr s => s
  | _ => pyRepr v

/-- The mutable state of one `generateTable` pass: the lines printed so
far, the `total` counter, the `contributors` dict and the `Counter`.
Both mappings are insertion-ordered association lists, matching the
counting structure's documented first-seen iteration order. -/
structure GTState where
  lines : List Str
  total : Nat
  contributors : List (Str × JVal)
  counter : List (Str × Nat)

/-- Dict store `d[k] = v`: overwrite in place, or append a new entry. -/
def upsert : List (Str × JVal) → Str → JVal → List (Str × JVal)
  | [], k, v => [(k, v)]
  | p :: ps, k, v => if p.1 = k then (k, v) :: ps else p :: upsert ps k v

/-- Dict read `d[k]` as an option (first matching entry). -/
def lookupVal : List (Str × JVal) → Str → Option JVal
  | [], _ => none
  | p :: ps, k => if p.1 = k then some p.2 else lookupVal ps k

/-- `Counter` increment `c[u] += 1` (missing keys count as zero). -/
def bump : List (Str × Nat) → Str → List (Str × Nat)
  | [], u => [(u, 1)]
  | p :: ps, u => if p.1 = u then (p.1, p.2 + 1) :: ps else p :: bump ps u

/-- `Counter` read `c[u]` (zero when absent). -/
def countOf : List (Str × Nat) → Str → Nat
  | [], _ => 0
  | p :: ps, u => if p.1 = u then p.2 else countOf ps u

/-- Title clean-up in `generateTable`:
`result['title'].encode('utf-8').replace('\n', ' ').replace('\r', '')`
followed by `bodyBreaker(title, 25)`. -/
def processTitle (t : Str) : Str :=
  bodyBreaker (pyReplaceChar (pyReplaceChar t '\n' [' ']) '\r' []) 25

/-- The body text just before the final `bodyBreaker`:
`result['body'][0:limit]` with `'\n'` turned into spaces, `'\r'` and
backticks removed, and `'...'` appended when the original body is longer
than `limit`. -/
def elideBody (body0 : Str) (limit : Nat) : Str :=
  let b := pyReplaceChar (pyReplaceChar (pyReplaceChar (body0.take limit) '\n' [' ']) '\r' []) backquote []
  if body0.length > limit then b ++ "...".data else b

/-- The summary field emitted for an issue whose raw body is the string
`body0`: `bodyBreaker(..., 50)` over the elided body, with `'n/a'`
substituted when the result is empty. -/
def processBody (body0 : Str) (limit : Nat) : Str :=
  let b := bodyBreaker (elideBody body0 limit) 50
  if b.length = 0 then "n/a".data else b

/-- The row format string
`"|[{}]({})|{}|[{}]({})|".format(title, url, body, user, user_url)`. -/
def mkRow (title urlS bodyS userS userUrlS : Str) : Str :=
  "|[".data ++ title ++ "](".data ++ urlS ++ ")|".data ++ bodyS
    ++ "|[".data ++ userS ++ "](".data ++ userUrlS ++ ")|".data

/-- The body of the `for result in output` loop of `generateTable`,
with field accesses raising exactly where the Python code would. -/
def processIssue (limit : Nat) (st : GTState) (result : JVal) : Except PyErr GTState := do
  let titleJ ← pyIndex result "title".data
  let titleS ← pyEncode titleJ
  let title := processTitle titleS
  let urlJ ← pyIndex result "html_url".data
  let bodyJ ← pyIndex result "body".data
  let body0 ← sliceBody bodyJ
  let body := processBody body0 limit
  let userJ ← pyIndex result "user".data
  let loginJ ← pyIndex userJ "login".data
  let user ← pyEncode loginJ
  let userUrlJ ← pyIndex userJ "html_url".data
  Except.ok
    { lines := st.lines ++ [mkRow title (pyStrOf urlJ) body user (pyStrOf userUrlJ)],
      total := st.total + 1,
      contributors := upsert st.contributors user userUrlJ,
      counter := bump st.counter user }

/-- Python `for result in output`: a list yields its elements, a dict its
keys, a string its characters; everything else raises `TypeError`. -/
def pyIterate (v : JVal) : Except PyErr (List JVal) :=
  match v with
  | .jarr xs => .ok xs
  | .jobj fs => .ok (fs.map (fun p => .jstr p.1))
  | .jstr s => .ok (s.map (fun c => .jstr [c]))
  | _ => .error .typeError

/-- The issue loop of `generateTable`, folded over the parsed results. -/
def processIssues (limit : Nat) : GTState → List JVal → Except PyErr GTState
  | st, [] => .ok st
  | st, r :: rs => do
    let st2 ← processIssue limit st r
    processIssues limit st2 rs

/-- Decimal rendering of a count, as `"{}".format` produces it. -/
def natStr (n : Nat) : Str := (Nat.repr n).data

/-- `"Total of {} out of {}\n".format(total, len(output))`. -/
def totalLine (emitted returned : Nat) : Str :=
  "Total of ".data ++ natStr emitted ++ " out of ".data ++ natStr returned ++ "\n".data

/-- `"\n## {} Updates".format(label)` after the label touch-up. -/
def headingLine (label : Str) : Str :=
  "\n## ".data ++ fixLabel label ++ " Updates".data

/-- The fixed table-header line printed next. -/
def introLine : Str := "\n| Title | Summary | Contributor |\n|---|---|---|".data

/-- `generateTable(url, params, limit, c)` applied to the parsed JSON
response `output`: returns the printed lines, the contributors dict and
the updated counter, or the Python exception the pass raises. -/
def generateTable (label : Str) (limit : Nat) (output : JVal) (c : List (Str × Nat)) :
    Except PyErr (List Str × List (Str × JVal) × List (Str × Nat)) := do
  let results ← pyIterate output
  let stF ← processIssues limit ⟨[headingLine label, introLine], 0, [], c⟩ results
  Except.ok (stF.lines ++ [totalLine stF.total results.length], stF.contributors, stF.counter)

/-- The message printed by `getLabels` in the not-found branch. -/
def notFoundMsg : Str := "That repo and/or label was not found.".data

/-- Python `output['message'] == "Not Found"` once the lookup succeeded:
equality with a string is `False` for any non-string value. -/
def isNotFound (v : JVal) : Bool :=
  match v with
  | .jstr s => s = "Not Found".data
  | _ => false

/-- `getLabels(url)` applied to the parsed JSON response: returns the
printed lines and the returned label list, or the exception raised.
`output['message']` on a parsed list (the shape of every successful
label-listing response) raises `TypeError`; on a dict without that key
it raises `KeyError`; and in the `else` branch the loop iterates over
the dict's keys (the dict is non-empty, it holds `'message'`), so
`result['name']` on a string key raises `TypeError`. -/
def getLabels (output : JVal) : Except PyErr (List Str × List Str) :=
  match output with
  | .jobj fs =>
    match lookupField fs "message".data with
    | none => .error .keyError
    | some v =>
      if isNotFound v then .ok ([notFoundMsg], [])
      else .error .typeError
  | _ => .error .typeError

/-- The descending-count relation used to rank contributors: `a` may come
before `b` when `b`'s count does not exceed `a`'s. -/
def countGE (a b : Str × Nat) : Prop := b.2 ≤ a.2

instance : DecidableRel countGE := fun a b => inferInstanceAs (Decidable (b.2 ≤ a.2))

instance : IsTotal (Str × Nat) countGE := ⟨fun a b => Nat.le_total b.2 a.2⟩

instance : IsTrans (Str × Nat) countGE := ⟨fun _ _ _ hab hbc => Nat.le_trans hbc hab⟩

/-- `counter.most_common()`: a stable sort of the counter's entries by
count, descending — entries with equal counts keep their first-seen
order, the counting structure's documented iteration order. -/
def mostCommon (c : List (Str × Nat)) : List (Str × Nat) :=
  List.insertionSort countGE c

/-- `"\n### {} Contributors\n".format(label)` after the label touch-up. -/
def contribHeading (label : Str) : Str :=
  "\n### ".data ++ fixLabel label ++ " Contributors\n".data

/-- `generateList(contributors, counter, label)`: the heading, one
`"[{}]({})"` link per ranked contributor (printed with a space ending),
and the final newline; `contributors[user]` raises `KeyError` when the
user is missing from the dict. -/
def generateList (contributors : List (Str × JVal)) (counter : List (Str × Nat)) (label : Str) :
    Except PyErr (List Str) := do
  let links ← (mostCommon counter).mapM (fun p =>
    match lookupVal contributors p.1 with
    | some url => Except.ok ("[".data ++ p.1 ++ "](".data ++ pyStrOf url ++ ")".data)
    | none => Except.error PyErr.keyError)
  Except.ok ([contribHeading label] ++ links ++ ["\n".data])

/-- Whether an issue object has the shape `generateTable` consumes
without raising: string `title`, some `html_url`, string `body`, and a
`user` dict with a string `login` and some `html_url`. -/
def isWF (r : JVal) : Bool :=
  match pyIndex r "title".data, pyIndex r "html_url".data,
        pyIndex r "body".data, pyIndex r "user".data with
  | .ok (.jstr _), .ok _, .ok (.jstr _), .ok u =>
    match pyIndex u "login".data, pyIndex u "html_url".data with
    | .ok (.jstr _), .ok _ => true
    | _, _ => false
  | _, _, _, _ => false

/-- The author login of a well-formed issue (junk default otherwise). -/
def issueLogin (r : JVal) : Str :=
  match pyIndex r "user".data with
  | .ok u =>
    match pyIndex u "login".data with
    | .ok (.jstr s) => s
    | _ => []
  | _ => []

/-- The author profile URL of a well-formed issue (junk default
otherwise). -/
def issueUserUrl (r : JVal) : JVal :=
  match pyIndex r "user".data with
  | .ok u =>
    match pyIndex u "html_url".data with
    | .ok v => v
    | _ => .jnull
  | _ => .jnull

/-- The last profile URL written for `u` by the sequence of dict stores
`contributors[user] = user_url`, scanning the (login, url) pairs. -/
def lastUrl (u : Str) : List (Str × JVal) → Option JVal
  | [] => none
  | p :: ps => (lastUrl u ps).orElse (fun _ => if p.1 = u then some p.2 else none)

/-- A well-formed issue literal, for concrete instantiations. -/
def mkIssue (t u b login uu : Str) : JVal :=
  .jobj [("title".data, .jstr t), ("html_url".data, .jstr u), ("body".data, .jstr b),
         ("user".data, .jobj [("login".data, .jstr login), ("html_url".data, .jstr uu)])]

/-- An issue whose `body` field is JSON `null`. -/
def nullBodyIssue : JVal :=
  .jobj [("title".data, .jstr "t".data), ("html_url".data, .jstr "u".data),
         ("body".data, .jnull),
         ("user".data, .jobj [("login".data, .jstr "dev".data),
                              ("html_url".data, .jstr "w".data)])]

/-- Three well-formed issues, two by the same author. -/
def demoIssues : List JVal :=
  [mkIssue "t1".data "u1".data "b1".data "dev".data "w1".data,
   mkIssue "t2".data "u2".data "b2".data "ana".data "w2".data,
   mkIssue "t3".data "u3".data "b3".data "dev".data "w1".data]

/-! ## Properties of the word splitter and the sanitizer -/

/-- Every word produced by the splitter is non-empty and whitespace-free. -/
theorem splitWsAux_tokens : ∀ (s cur : Str), (∀ c ∈ cur, isSpace c = false) →
    ∀ w ∈ splitWsAux s cur, w ≠ [] ∧ ∀ c ∈ w, isSpace c = false
  | [], cur, hcur, w, hw => by
    unfold splitWsAux at hw
    split at hw
    · simp at hw
    · next hne =>
      simp only [List.mem_singleton] at hw
      subst hw
      refine ⟨by simpa using hne, fun c hc => hcur c (List.mem_reverse.mp hc)⟩
  | c :: rest, cur, hcur, w, hw => by
    unfold splitWsAux at hw
    split at hw
    · split at hw
      · exact splitWsAux_tokens rest [] (by simp) w hw
      · next hne =>
        rcases List.mem_cons.mp hw with h | h
        · subst h
          exact ⟨by simpa using hne, fun c hc => hcur c (List.mem_reverse.mp hc)⟩
        · exact splitWsAux_tokens rest [] (by simp) w h
    · next hsp =>
      refine splitWsAux_tokens rest (c :: cur) ?_ w hw
      intro x hx
      rcases List.mem_cons.mp hx with h | h
      · subst h; simpa using hsp
      · exact hcur x h

/-- Every word of `splitWs s` is non-empty and whitespace-free. -/
theorem splitWs_tokens (s : Str) : ∀ w ∈ splitWs s, w ≠ [] ∧ ∀ c ∈ w, isSpace c = false :=
  splitWsAux_tokens s [] (by simp)

/-- Scanning a whitespace-free chunk just accumulates it. -/
theorem splitWsAux_append_word : ∀ (w : Str), (∀ c ∈ w, isSpace c = false) →
    ∀ (s cur : Str), splitWsAux (w ++ s) cur = splitWsAux s (w.reverse ++ cur)
  | [], _, s, cur => by simp
  | c :: w', hw, s, cur => by
    have hc : isSpace c = false := hw c (List.mem_cons_self c w')
    have hw' : ∀ x ∈ w', isSpace x = false := fun x hx => hw x (List.mem_cons_of_mem c hx)
    show splitWsAux (c :: (w' ++ s)) cur = _
    rw [splitWsAux.eq_def]
    simp only [hc, Bool.false_eq_true, if_false]
    rw [splitWsAux_append_word w' hw' s (c :: cur)]
    simp [List.append_assoc]

/-- Splitting a single non-empty whitespace-free word. -/
theorem splitWsAux_word_only (w : Str) (hne : w ≠ []) (hw : ∀ c ∈ w, isSpace c = false)
    (cur : Str) : splitWsAux w cur = [cur.reverse ++ w] := by
  have h := splitWsAux_append_word w hw [] cur
  rw [List.append_nil] at h
  rw [h]
  unfold splitWsAux
  rw [if_neg (by simp [hne])]
  simp [List.reverse_append]

/-- Splitting the re-assembled output of the sanitizer recovers exactly
the word list, provided the words are non-empty and whitespace-free. -/
theorem splitWs_flatten : ∀ (ws : List Str), (∀ w ∈ ws, w ≠ [] ∧ ∀ c ∈ w, isSpace c = false) →
    splitWs ((ws.map (fun w => w ++ [' '])).flatten) = ws
  | [], _ => rfl
  | w :: ws', h => by
    have hw := h w (List.mem_cons_self _ _)
    have hws' : ∀ x ∈ ws', x ≠ [] ∧ ∀ c ∈ x, isSpace c = false :=
      fun x hx => h x (List.mem_cons_of_mem _ hx)
    show splitWs ((w ++ [' ']) ++ ((ws'.map (fun w => w ++ [' '])).flatten)) = _
    unfold splitWs
    rw [List.append_assoc, splitWsAux_append_word w hw.2]
    show splitWsAux (' ' :: (ws'.map (fun w => w ++ [' '])).flatten) (w.reverse ++ []) = _
    rw [List.append_nil]
    unfold splitWsAux
    rw [if_pos (show isSpace ' ' = true from rfl), if_neg (by simp [hw.1]),
      List.reverse_reverse]
    exact congrArg (w :: ·) (splitWs_flatten ws' hws')

/-- The word loop of `bodyBreaker` written as a flatten of its words. -/
theorem foldl_append_flatten (f : Str → Str) : ∀ (l : List Str) (acc : Str),
    l.foldl (fun a w => a ++ f w) acc = acc ++ (l.map f).flatten
  | [], acc => by simp
  | w :: l, acc => by
    simp only [List.foldl_cons, List.map_cons, List.flatten_cons]
    rw [foldl_append_flatten f l (acc ++ f w)]
    simp [List.append_assoc]

/-- `bodyBreaker` is the concatenation of its truncated words, each
followed by one space. -/
theorem bodyBreaker_eq_flatten (s : Str) (W : Nat) :
    bodyBreaker s W = ((splitWs s).map (fun w => truncWord W w ++ [' '])).flatten := by
  unfold bodyBreaker
  rw [foldl_append_flatten (fun w => truncWord W w ++ [' '])]
  simp

/-- Truncated words never exceed the width plus the two marker dots. -/
theorem truncWord_length (W : Nat) (w : Str) : (truncWord W w).length ≤ W + 2 := by
  unfold truncWord
  split
  · simp only [List.length_append, List.length_take, List.length_cons, List.length_nil]
    omega
  · next h => omega

/-- Words within the width pass through the truncation untouched. -/
theorem truncWord_eq_of_le (W : Nat) (w : Str) (h : w.length ≤ W) : truncWord W w = w := by
  unfold truncWord
  rw [if_neg (by omega)]

/-- Truncation keeps words non-empty. -/
theorem truncWord_ne_nil (W : Nat) (w : Str) (h : w ≠ []) : truncWord W w ≠ [] := by
  unfold truncWord
  split
  · simp
  · exact h

/-- Truncation keeps words whitespace-free. -/
theorem truncWord_nonspace (W : Nat) (w : Str) (h : ∀ c ∈ w, isSpace c = false) :
    ∀ c ∈ truncWord W w, isSpace c = false := by
  unfold truncWord
  split
  · intro c hc
    rcases List.mem_append.mp hc with h1 | h1
    · exact h c (List.take_subset W w h1)
    · rcases List.mem_cons.mp h1 with h2 | h2
      · subst h2; rfl
      · simp only [List.mem_singleton] at h2; subst h2; rfl
  · exact h

/-- Truncating twice is the same as truncating once. -/
theorem truncWord_idem (W : Nat) (w : Str) : truncWord W (truncWord W w) = truncWord W w := by
  by_cases h : w.length > W
  · have hlen : (w.take W).length = W := by simp [List.length_take]; omega
    unfold truncWord
    rw [if_pos h, if_pos (by simp [List.length_append, hlen])]
    congr 1
    rw [List.take_left' hlen]
  · rw [truncWord_eq_of_le W w (by omega), truncWord_eq_of_le W w (by omega)]

/-- The words of the sanitizer's output are exactly the truncations of
the words of its input, in order. -/
theorem splitWs_bodyBreaker (s : Str) (W : Nat) :
    splitWs (bodyBreaker s W) = (splitWs s).map (truncWord W) := by
  rw [bodyBreaker_eq_flatten]
  have hmap : (splitWs s).map (fun w => truncWord W w ++ [' '])
      = ((splitWs s).map (truncWord W)).map (fun w => w ++ [' ']) := by
    simp [List.map_map, Function.comp]
  rw [hmap]
  apply splitWs_flatten
  intro w hw
  rcases List.mem_map.mp hw with ⟨v, hv, rfl⟩
  have hvp := splitWs_tokens s v hv
  exact ⟨truncWord_ne_nil W v hvp.1, truncWord_nonspace W v hvp.2⟩

/-- The sanitizer is idempotent, at every width, on every string. -/
theorem bodyBreaker_idem (s : Str) (W : Nat) :
    bodyBreaker (bodyBreaker s W) W = bodyBreaker s W := by
  rw [bodyBreaker_eq_flatten (bodyBreaker s W) W, splitWs_bodyBreaker,
    bodyBreaker_eq_flatten s W]
  congr 1
  rw [List.map_map]
  apply List.map_congr_left
  intro w _
  simp [Function.comp, truncWord_idem]

/-! ## Suffix structure of the emitted body field -/

/-- A value reported by `getLast?` is a member of the list. -/
theorem getLast?_mem' : ∀ (l : List Str) (x : Str), l.getLast? = some x → x ∈ l
  | [], _, h => by simp at h
  | [a], x, h => by
    simp only [List.getLast?_singleton, Option.some.injEq] at h
    simp [h]
  | a :: b :: l, x, h => by
    rw [List.getLast?_cons_cons] at h
    exact List.mem_cons_of_mem a (getLast?_mem' (b :: l) x h)

/-- The last chunk of a flattened list is a suffix of the whole. -/
theorem flatten_getLast_suffix : ∀ (l : List Str) (x : Str),
    l.getLast? = some x → x <:+ l.flatten
  | [], x, h => by simp at h
  | [a], x, h => by
    simp only [List.getLast?_singleton, Option.some.injEq] at h
    subst h
    simp
  | a :: b :: l, x, h => by
    rw [List.getLast?_cons_cons] at h
    rw [List.flatten_cons]
    exact (flatten_getLast_suffix (b :: l) x h).trans (List.suffix_append a _)

/-- Appending the same character respects the suffix order. -/
theorem suffix_snoc_iff {a b : Str} (x : Char) : a ++ [x] <:+ b ++ [x] ↔ a <:+ b := by
  constructor
  · rintro ⟨p, hp⟩
    rw [← List.append_assoc] at hp
    exact ⟨p, List.append_cancel_right hp⟩
  · rintro ⟨p, rfl⟩
    exact ⟨p, by simp⟩

/-- When the input ends in a non-empty whitespace-free chunk, the last
word reported by the splitter carries that chunk as a suffix. -/
theorem splitWsAux_append_getLast (t : Str) (htne : t ≠ [])
    (ht : ∀ c ∈ t, isSpace c = false) :
    ∀ (s cur : Str), ∃ w, (splitWsAux (s ++ t) cur).getLast? = some w ∧ t <:+ w := by
  intro s
  induction s with
  | nil =>
    intro cur
    rw [List.nil_append, splitWsAux_word_only t htne ht cur]
    exact ⟨cur.reverse ++ t, rfl, List.suffix_append _ _⟩
  | cons c s' ih =>
    intro cur
    show ∃ w, (splitWsAux (c :: (s' ++ t)) cur).getLast? = some w ∧ t <:+ w
    unfold splitWsAux
    by_cases hc : isSpace c = true
    · rw [if_pos hc]
      by_cases hcur : cur = []
      · rw [if_pos hcur]
        exact ih []
      · rw [if_neg hcur]
        obtain ⟨w, hw, hsuf⟩ := ih []
        refine ⟨w, ?_, hsuf⟩
        cases hL : splitWsAux (s' ++ t) [] with
        | nil => rw [hL] at hw; simp at hw
        | cons x xs =>
          rw [hL] at hw
          rw [List.getLast?_cons_cons]
          exact hw
    · rw [if_neg hc]
      exact ih (c :: cur)

/-- `splitWs` version of the previous lemma. -/
theorem splitWs_append_getLast (s t : Str) (htne : t ≠ [])
    (ht : ∀ c ∈ t, isSpace c = false) :
    ∃ w, (splitWs (s ++ t)).getLast? = some w ∧ t <:+ w :=
  splitWsAux_append_getLast t htne ht s []

/-- When the raw body exceeds the limit and every word of the elided
text fits the width 50, the emitted summary ends with the ellipsis
marker followed by the sanitizer's trailing space. -/
theorem processBody_marker (body : Str) (limit : Nat) (hlong : body.length > limit)
    (hfit : ∀ w ∈ splitWs (elideBody body limit), w.length ≤ 50) :
    "... ".data <:+ processBody body limit := by
  have helide : elideBody body limit
      = pyReplaceChar (pyReplaceChar (pyReplaceChar (body.take limit) '\n' [' ']) '\r' [])
          backquote [] ++ "...".data := by
    unfold elideBody
    rw [if_pos hlong]
  obtain ⟨w, hwlast, hwsuf⟩ :=
    splitWs_append_getLast
      (pyReplaceChar (pyReplaceChar (pyReplaceChar (body.take limit) '\n' [' ']) '\r' [])
        backquote [])
      "...".data (by decide) (by decide)
  rw [← helide] at hwlast
  have hwmem : w ∈ splitWs (elideBody body limit) := getLast?_mem' _ w hwlast
  have hwfit : truncWord 50 w = w := truncWord_eq_of_le 50 w (hfit w hwmem)
  have hlast2 : ((splitWs (elideBody body limit)).map
      (fun v => truncWord 50 v ++ [' '])).getLast? = some (w ++ [' ']) := by
    rw [List.getLast?_map, hwlast]
    simp [hwfit]
  have hsufB : (w ++ [' ']) <:+ bodyBreaker (elideBody body limit) 50 := by
    rw [bodyBreaker_eq_flatten]
    exact flatten_getLast_suffix _ _ hlast2
  have hdots : "... ".data <:+ w ++ [' '] := by
    show "...".data ++ [' '] <:+ w ++ [' ']
    exact (suffix_snoc_iff ' ').mpr hwsuf
  have hfin : "... ".data <:+ bodyBreaker (elideBody body limit) 50 := hdots.trans hsufB
  unfold processBody
  rw [if_neg ?hne]
  · exact hfin
  case hne =>
    have hlen := hfin.length_le
    simp only [List.length_cons] at hlen ⊢
    omega

/-- When no marker was appended and no word of the elided text exceeds
width 50 or ends in a period, the emitted summary does not end with the
marker plus trailing space. -/
theorem processBody_no_marker (body : Str) (limit : Nat)
    (hok : ∀ w ∈ splitWs (elideBody body limit), w.length ≤ 50 ∧ ¬ (['.'] <:+ w)) :
    ¬ ("... ".data <:+ processBody body limit) := by
  intro hsuf
  cases htk : (splitWs (elideBody body limit)).getLast? with
  | none =>
    rw [List.getLast?_eq_none_iff] at htk
    have hempty : processBody body limit = "n/a".data := by
      unfold processBody
      rw [bodyBreaker_eq_flatten, htk]
      simp
    rw [hempty] at hsuf
    exact absurd hsuf (by decide)
  | some w =>
    have hwmem : w ∈ splitWs (elideBody body limit) := getLast?_mem' _ w htk
    obtain ⟨hw50, hwdot⟩ := hok w hwmem
    have hwne : w ≠ [] := (splitWs_tokens _ w hwmem).1
    have hwfit : truncWord 50 w = w := truncWord_eq_of_le 50 w hw50
    have hlast2 : ((splitWs (elideBody body limit)).map
        (fun v => truncWord 50 v ++ [' '])).getLast? = some (w ++ [' ']) := by
      rw [List.getLast?_map, htk]
      simp [hwfit]
    have hsufB : (w ++ [' ']) <:+ bodyBreaker (elideBody body limit) 50 := by
      rw [bodyBreaker_eq_flatten]
      exact flatten_getLast_suffix _ _ hlast2
    have hbody : processBody body limit = bodyBreaker (elideBody body limit) 50 := by
      unfold processBody
      rw [if_neg ?hne2]
      case hne2 =>
        have hlen := hsufB.length_le
        simp only [List.length_append, List.length_cons, List.length_nil] at hlen ⊢
        intro h0
        omega
    rw [hbody] at hsuf
    rcases List.suffix_or_suffix_of_suffix hsuf hsufB with hcase | hcase
    · have : "...".data <:+ w := by
        have := (suffix_snoc_iff ' ').mp (show "...".data ++ [' '] <:+ w ++ [' '] from hcase)
        exact this
      exact hwdot ((by decide : ['.'] <:+ "...".data).trans this)
    · have hws : w <:+ "...".data := by
        have := (suffix_snoc_iff ' ').mp (show w ++ [' '] <:+ "...".data ++ [' '] from hcase)
        exact this
      obtain ⟨p, hp⟩ := hws
      have hlastw : w.getLast? = some '.' := by
        have h1 : ("...".data : Str).getLast? = some '.' := by decide
        rw [← hp, List.getLast?_append] at h1
        rw [List.getLast?_eq_getLast w hwne] at h1 ⊢
        simpa using h1
      have : ['.'] <:+ w := by
        rw [List.getLast?_eq_getLast w hwne] at hlastw
        have hl : w.getLast hwne = '.' := Option.some.inj hlastw
        refine ⟨w.dropLast, ?_⟩
        rw [← hl]
        exact List.dropLast_append_getLast hwne
      exact hwdot this

/-! ## Replacement, counter and directory bookkeeping -/

/-- Replacing a character by a one-character string is a map. -/
theorem pyReplaceChar_single (s : Str) (c d : Char) :
    pyReplaceChar s c [d] = s.map (fun x => if x = c then d else x) := by
  induction s with
  | nil => rfl
  | cons x xs ih => by_cases hx : x = c <;> simp [pyReplaceChar, hx, ih]

/-- Replacing a character by the empty string is a filter. -/
theorem pyReplaceChar_delete (s : Str) (c : Char) :
    pyReplaceChar s c [] = s.filter (fun x => x ≠ c) := by
  induction s with
  | nil => rfl
  | cons x xs ih => by_cases hx : x = c <;> simp [pyReplaceChar, hx, ih, List.filter_cons]

/-- The read-back of a counter increment. -/
theorem countOf_bump : ∀ (c : List (Str × Nat)) (x u : Str),
    countOf (bump c x) u = countOf c u + (if x = u then 1 else 0)
  | [], x, u => by
    by_cases hxu : x = u <;> simp [bump, countOf, hxu]
  | p :: ps, x, u => by
    by_cases hp : p.1 = x
    · have hb : bump (p :: ps) x = (p.1, p.2 + 1) :: ps := by
        simp only [bump]
        rw [if_pos hp]
      rw [hb]
      show (if p.1 = u then p.2 + 1 else countOf ps u)
        = (if p.1 = u then p.2 else countOf ps u) + (if x = u then 1 else 0)
      by_cases hu : p.1 = u
      · rw [if_pos hu, if_pos hu, if_pos (hp.symm.trans hu)]
      · rw [if_neg hu, if_neg hu, if_neg (fun h => hu (hp.trans h))]
        omega
    · have hb : bump (p :: ps) x = p :: bump ps x := by
        simp only [bump]
        rw [if_neg hp]
      rw [hb]
      show (if p.1 = u then p.2 else countOf (bump ps x) u)
        = (if p.1 = u then p.2 else countOf ps u) + (if x = u then 1 else 0)
      by_cases hu : p.1 = u
      · rw [if_pos hu, if_pos hu, if_neg (fun h => hp (hu.trans h.symm))]
        omega
      · rw [if_neg hu, if_neg hu]
        exact countOf_bump ps x u

/-- The read-back of a dict store. -/
theorem lookupVal_upsert : ∀ (d : List (Str × JVal)) (k : Str) (v : JVal) (u : Str),
    lookupVal (upsert d k v) u = if k = u then some v else lookupVal d u
  | [], k, v, u => by
    by_cases hku : k = u <;> simp [upsert, lookupVal, hku]
  | p :: ps, k, v, u => by
    by_cases hp : p.1 = k
    · have hb : upsert (p :: ps) k v = (k, v) :: ps := by
        simp only [upsert]
        rw [if_pos hp]
      rw [hb]
      show (if k = u then some v else lookupVal ps u) = _
      by_cases hku : k = u
      · rw [if_pos hku, if_pos hku]
      · rw [if_neg hku, if_neg hku]
        show _ = if p.1 = u then some p.2 else lookupVal ps u
        rw [if_neg (fun h => hku (hp.symm.trans h))]
    · have hb : upsert (p :: ps) k v = p :: upsert ps k v := by
        simp only [upsert]
        rw [if_neg hp]
      rw [hb]
      show (if p.1 = u then some p.2 else lookupVal (upsert ps k v) u) = _
      by_cases hpu : p.1 = u
      · rw [if_pos hpu, if_neg (fun h => hp (hpu.trans h.symm))]
        show _ = if p.1 = u then some p.2 else lookupVal ps u
        rw [if_pos hpu]
      · rw [if_neg hpu, lookupVal_upsert ps k v u]
        by_cases hku : k = u
        · rw [if_pos hku, if_pos hku]
        · rw [if_neg hku, if_neg hku]
          show _ = if p.1 = u then some p.2 else lookupVal ps u
          rw [if_neg hpu]

/-- A well-formed issue is processed without raising, appends one row,
adds one to the total, upserts the author's URL and bumps the tally. -/
theorem processIssue_wf (limit : Nat) (st : GTState) (r : JVal) (h : isWF r = true) :
    ∃ row, processIssue limit st r = .ok
      { lines := st.lines ++ [row],
        total := st.total + 1,
        contributors := upsert st.contributors (issueLogin r) (issueUserUrl r),
        counter := bump st.counter (issueLogin r) } := by
  unfold isWF at h
  split at h
  case h_2 => exact absurd h (by simp)
  case h_1 t url b uj heqt heql heqb hequ =>
    split at h
    case h_2 => exact absurd h (by simp)
    case h_1 login uurl heqlogin heqene =>
      refine ⟨mkRow (processTitle t) (pyStrOf url) (processBody b limit) login
        (pyStrOf uurl), ?_⟩
      have hlogin : issueLogin r = login := by
        unfold issueLogin
        rw [hequ]
        show (match pyIndex uj "login".data with
          | .ok (.jstr s) => s
          | _ => []) = login
        rw [heqlogin]
      have huurl : issueUserUrl r = uurl := by
        unfold issueUserUrl
        rw [hequ]
        show (match pyIndex uj "html_url".data with
          | .ok v => v
          | _ => JVal.jnull) = uurl
        rw [heqene]
      unfold processIssue
      rw [heqt, heql, heqb, hequ, hlogin, huurl]
      simp only [bind, Except.bind, pyEncode, sliceBody, heqlogin, heqene]

/-- Folding a list of well-formed issues: the pass succeeds, the total
grows by the number of issues, each author's tally grows by their issue
count, and the directory reads back the last URL stored per author. -/
theorem processIssues_wf (limit : Nat) : ∀ (rs : List JVal) (st : GTState),
    (∀ r ∈ rs, isWF r = true) →
    ∃ stF, processIssues limit st rs = .ok stF
      ∧ stF.total = st.total + rs.length
      ∧ (∀ u, countOf stF.counter u
          = countOf st.counter u + (rs.filter (fun r => decide (issueLogin r = u))).length)
      ∧ (∀ u, lookupVal stF.contributors u
          = (lastUrl u (rs.map (fun r => (issueLogin r, issueUserUrl r)))).orElse
              (fun _ => lookupVal st.contributors u))
  | [], st, _ => by
    refine ⟨st, rfl, by simp, by simp, ?_⟩
    intro u
    simp [lastUrl, Option.orElse]
  | r :: rs, st, h => by
    obtain ⟨row, hrow⟩ := processIssue_wf limit st r (h r (List.mem_cons_self _ _))
    obtain ⟨stF, hrun, htot, hcnt, hdir⟩ :=
      processIssues_wf limit rs
        { lines := st.lines ++ [row],
          total := st.total + 1,
          contributors := upsert st.contributors (issueLogin r) (issueUserUrl r),
          counter := bump st.counter (issueLogin r) }
        (fun x hx => h x (List.mem_cons_of_mem _ hx))
    refine ⟨stF, ?_, ?_, ?_, ?_⟩
    · show (do
        let st2 ← processIssue limit st r
        processIssues limit st2 (rs)) = Except.ok stF
      rw [hrow]
      exact hrun
    · rw [htot]
      simp only [List.length_cons]
      omega
    · intro u
      rw [hcnt u, countOf_bump]
      by_cases hru : issueLogin r = u
      · simp [List.filter_cons, hru]
        omega
      · simp [List.filter_cons, hru]
    · intro u
      rw [hdir u, lookupVal_upsert]
      show _ = (lastUrl u ((issueLogin r, issueUserUrl r) :: rs.map
        (fun x => (issueLogin x, issueUserUrl x)))).orElse (fun _ => lookupVal st.contributors u)
      cases hcase : lastUrl u (rs.map (fun x => (issueLogin x, issueUserUrl x))) with
      | some v => simp [lastUrl, hcase, Option.orElse]
      | none =>
        by_cases hru : issueLogin r = u
        · simp [lastUrl, hcase, Option.orElse, hru]
        · simp [lastUrl, hcase, Option.orElse, hru]

/-- `generateTable` on a parsed list is the fold followed by the total
line. -/
theorem generateTable_jarr (label : Str) (limit : Nat) (results : List JVal)
    (c : List (Str × Nat)) :
    generateTable label limit (.jarr results) c
      = (processIssues limit ⟨[headingLine label, introLine], 0, [], c⟩ results).map
          (fun stF => (stF.lines ++ [totalLine stF.total results.length],
            stF.contributors, stF.counter)) := by
  unfold generateTable
  cases h : processIssues limit ⟨[headingLine label, introLine], 0, [], c⟩ results with
  | error e => simp [pyIterate, h, Except.map, Except.bind, bind]
  | ok stF => simp [pyIterate, h, Except.map, Except.bind, bind]

/-! ## The claims -/

/-- C1 (code bug): the claim says an issue whose `body` is null renders
the `'n/a'` placeholder, still increments the author's tally, and the
pass completes without error.  The code instead raises `TypeError` at
`result['body'][0:limit]`: here the embedded pass on a single
well-formed issue whose body is JSON null evaluates to that error. -/
theorem generateTable_null_body_raises :
    generateTable "bug".data 180 (.jarr [nullBodyIssue]) [] = .error .typeError := rfl

/-- C2 (code bug): the claim says that on a successful label-listing
response (a list of label objects with names) `getLabels` returns the
names in order without error.  The code first evaluates
`output['message']`, and indexing a Python list with a string raises
`TypeError`, so every successful response raises: here the embedded
function on the response `[ {"name": "bug"} ]` evaluates to that
error. -/
theorem getLabels_list_response_raises :
    getLabels (.jarr [.jobj [("name".data, JVal.jstr "bug".data)]]) = .error .typeError := rfl

/-- C3 counterexample: the string `"a"` has every whitespace-delimited
token of length at most 5, yet the sanitizer at width 5 does not return
it unchanged (a trailing space is appended). -/
theorem bodyBreaker_not_identity :
    (∀ w ∈ splitWs "a".data, w.length ≤ 5) ∧ bodyBreaker "a".data 5 ≠ "a".data :=
  ⟨by decide, by decide⟩

/-- C4 counterexample: with limit 5 the body `"abcdefgh"` is strictly
longer than the limit, yet the emitted summary field does not end in the
ellipsis marker `"..."` (the sanitizer appends a trailing space after
every token, the marker included). -/
theorem processBody_marker_not_final :
    "abcdefgh".data.length > 5 ∧ ¬ ("...".data <:+ processBody "abcdefgh".data 5) :=
  ⟨by decide, by decide⟩

/-- C5 counterexample: the claim says every carriage return in the title
is replaced with a space before the sanitizer at width 25.  The code
deletes carriage returns instead (`.replace('\r', '')`): on the title
`"a\rb"` the code produces the sanitized form of `"ab"`, not of
`"a b"`. -/
theorem processTitle_cr_not_space :
    processTitle "a\rb".data
      ≠ bodyBreaker ("a\rb".data.map (fun c => if c = '\n' ∨ c = '\r' then ' ' else c)) 25 := by
  decide

/-- C3 (amended): on a string in which every whitespace-delimited token
has length at most W, the sanitizer at width W returns the tokens
unchanged, each followed by a single trailing space (the string itself
is not returned verbatim); and applying the sanitizer twice equals
applying it once. -/
theorem bodyBreaker_short_tokens (s : Str) (W : Nat)
    (h : ∀ w ∈ splitWs s, w.length ≤ W) :
    bodyBreaker s W = ((splitWs s).map (fun w => w ++ [' '])).flatten
    ∧ bodyBreaker (bodyBreaker s W) W = bodyBreaker s W := by
  constructor
  · rw [bodyBreaker_eq_flatten]
    congr 1
    apply List.map_congr_left
    intro w hw
    rw [truncWord_eq_of_le W w (h w hw)]
  · exact bodyBreaker_idem s W

/-- Witness for C3's amended theorem at `s = "a b"`, `W = 5`. -/
theorem bodyBreaker_short_tokens_witness :
    bodyBreaker "a b".data 5 = ((splitWs "a b".data).map (fun w => w ++ [' '])).flatten
    ∧ bodyBreaker (bodyBreaker "a b".data 5) 5 = bodyBreaker "a b".data 5 :=
  bodyBreaker_short_tokens "a b".data 5 (by decide)

/-- C4 (amended): when the raw body is strictly longer than the limit
and every token of the elided text fits the sanitizer width 50, the
emitted summary field ends with the ellipsis marker followed by the
sanitizer's trailing space (`"... "`); when the body is within the limit
and no token of the elided text exceeds width 50 or ends in a period,
the emitted field does not end with the marker-plus-space. -/
theorem processBody_ellipsis (body : Str) (limit : Nat) :
    (body.length > limit → (∀ w ∈ splitWs (elideBody body limit), w.length ≤ 50) →
      "... ".data <:+ processBody body limit)
    ∧ (body.length ≤ limit →
        (∀ w ∈ splitWs (elideBody body limit), w.length ≤ 50 ∧ ¬ (['.'] <:+ w)) →
        ¬ ("... ".data <:+ processBody body limit)) :=
  ⟨fun hlong hfit => processBody_marker body limit hlong hfit,
   fun _ hok => processBody_no_marker body limit hok⟩

/-- Witness for C4's amended theorem: the long body `"abcdefgh"` at
limit 5 ends in `"... "`; the short body `"hi"` at limit 5 does not. -/
theorem processBody_ellipsis_witness :
    ("... ".data <:+ processBody "abcdefgh".data 5)
    ∧ ¬ ("... ".data <:+ processBody "hi".data 5) :=
  ⟨(processBody_ellipsis "abcdefgh".data 5).1 (by decide) (by decide),
   (processBody_ellipsis "hi".data 5).2 (by decide) (by decide)⟩

/-- C5 (amended): before the sanitizer at width 25 is applied to a
title, every newline is replaced with a space and every carriage return
is removed (not replaced with a space). -/
theorem processTitle_normalizes (t : Str) :
    processTitle t
      = bodyBreaker ((t.map (fun c => if c = '\n' then ' ' else c)).filter
          (fun c => c ≠ '\r')) 25 := by
  unfold processTitle
  rw [pyReplaceChar_single, pyReplaceChar_delete]

/-- C6: for every input string and width, each whitespace-delimited
token of the sanitizer's output has length at most W + 2; each token of
the input of length at most W appears unchanged among the output's
tokens; and the empty input yields the empty output. -/
theorem bodyBreaker_token_bounds (s : Str) (W : Nat) :
    (∀ w ∈ splitWs (bodyBreaker s W), w.length ≤ W + 2)
    ∧ (∀ w ∈ splitWs s, w.length ≤ W → w ∈ splitWs (bodyBreaker s W))
    ∧ bodyBreaker [] W = [] := by
  refine ⟨?_, ?_, rfl⟩
  · intro w hw
    rw [splitWs_bodyBreaker] at hw
    rcases List.mem_map.mp hw with ⟨v, _, rfl⟩
    exact truncWord_length W v
  · intro w hw hlen
    rw [splitWs_bodyBreaker]
    exact List.mem_map.mpr ⟨w, hw, truncWord_eq_of_le W w hlen⟩

/-- Witness for C6 at `s = "hello friend"`, `W = 5`: the short token
`"hello"` survives unchanged among the output's tokens. -/
theorem bodyBreaker_token_bounds_witness :
    "hello".data ∈ splitWs (bodyBreaker "hello friend".data 5) :=
  (bodyBreaker_token_bounds "hello friend".data 5).2.1 "hello".data (by decide) (by decide)

/-- C7: on a response of well-formed issues, one label's pass succeeds;
each issue contributes exactly one increment to its author's tally (the
final count per author is the number of that author's issues) and one
upsert of the author's profile URL (the directory reads back the last
URL stored per author); and the final printed line is
`Total of n out of n` with the same number on both sides. -/
theorem generateTable_tally (label : Str) (limit : Nat) (results : List JVal)
    (h : ∀ r ∈ results, isWF r = true) :
    ∃ lines dir counter, generateTable label limit (.jarr results) [] = .ok (lines, dir, counter)
      ∧ (∀ u, countOf counter u = (results.filter (fun r => decide (issueLogin r = u))).length)
      ∧ (∀ u, lookupVal dir u = lastUrl u (results.map (fun r => (issueLogin r, issueUserUrl r))))
      ∧ lines.getLast? = some (totalLine results.length results.length) := by
  obtain ⟨stF, hrun, htot, hcnt, hdir⟩ :=
    processIssues_wf limit results ⟨[headingLine label, introLine], 0, [], []⟩ h
  refine ⟨stF.lines ++ [totalLine stF.total results.length], stF.contributors, stF.counter,
    ?_, ?_, ?_, ?_⟩
  · rw [generateTable_jarr, hrun]
    rfl
  · intro u
    rw [hcnt u]
    simp [countOf]
  · intro u
    rw [hdir u]
    cases hcase : lastUrl u (results.map (fun r => (issueLogin r, issueUserUrl r))) <;>
      simp [Option.orElse, lookupVal]
  · rw [List.getLast?_concat, htot]
    simp

/-- Witness for C7 on three concrete issues, two by the same author. -/
theorem generateTable_tally_witness :
    ∃ lines dir counter,
      generateTable "bug".data 180 (.jarr demoIssues) [] = .ok (lines, dir, counter)
      ∧ (∀ u, countOf counter u
          = (demoIssues.filter (fun r => decide (issueLogin r = u))).length)
      ∧ (∀ u, lookupVal dir u
          = lastUrl u (demoIssues.map (fun r => (issueLogin r, issueUserUrl r))))
      ∧ lines.getLast? = some (totalLine demoIssues.length demoIssues.length) :=
  generateTable_tally "bug".data 180 demoIssues (by decide)

/-- C8: the ranker emits contributors in descending order of their
counts (the ranked list is pairwise ordered by `countGE`), and on the
concrete tally alice 3, bob 5, carol 3 (in first-seen order) the emitted
links place bob first and keep alice before carol. -/
theorem generateList_descending :
    (∀ counter : List (Str × Nat), List.Pairwise countGE (mostCommon counter))
    ∧ generateList
        [("alice".data, .jstr "A".data), ("bob".data, .jstr "B".data),
         ("carol".data, .jstr "C".data)]
        [("alice".data, 3), ("bob".data, 5), ("carol".data, 3)] "bug".data
      = .ok ["\n### Bug Fix Contributors\n".data,
             "[bob](B)".data, "[alice](A)".data, "[carol](C)".data, "\n".data] := by
  constructor
  · intro counter
    exact List.sorted_insertionSort countGE counter
  · rfl

/-- C9: a pass over an empty response prints the section heading and the
table header, then immediately the line `Total of 0 out of 0`, with no
rows in between, and returns an empty directory and the counter
untouched. -/
theorem generateTable_empty_response (label : Str) (limit : Nat) (c : List (Str × Nat)) :
    generateTable label limit (.jarr []) c
      = .ok ([headingLine label, introLine, totalLine 0 0], [], c) := rfl

/-- C10: when the parsed label-listing response is an object whose
`message` field equals `"Not Found"`, `getLabels` prints the user-facing
not-found message and returns the empty label list, raising nothing. -/
theorem getLabels_not_found (fs : List (Str × JVal))
    (h : lookupField fs "message".data = some (.jstr "Not Found".data)) :
    getLabels (.jobj fs) = .ok ([notFoundMsg], []) := by
  unfold getLabels
  show (match lookupField fs "message".data with
    | none => Except.error PyErr.keyError
    | some v =>
      if isNotFound v = true then Except.ok ([notFoundMsg], [])
      else Except.error PyErr.typeError) = _
  rw [h]
  rfl

/-- Witness for C10 on the literal not-found response object. -/
theorem getLabels_not_found_witness :
    lookupField [("message".data, JVal.jstr "Not Found".data)] "message".data
      = some (JVal.jstr "Not Found".data)
    ∧ getLabels (.jobj [("message".data, JVal.jstr "Not Found".data)])
      = .ok ([notFoundMsg], []) :=
  ⟨rfl, getLabels_not_found _ rfl⟩

end RepoReleaseNotes
